import Mathlib

/-!
Verification development for the lecture-voice-to-notes application
(`src/app.py`).  The definitions below are a shallow embedding of the
pure logic of that program: text cleanup of transcripts, password
validation, quiz clipping/scoring/submission, the transcription-backend
dispatch, and the model-response fence-stripping / JSON-parsing stage.
Python strings are modelled as Lean `String` (lists of characters),
machine floats for quiz percentages are modelled as rationals, and
fallible external calls are modelled as `Option`-valued outcomes.
-/

set_option maxHeartbeats 1000000
set_option maxRecDepth 10000

/-- Python `str.lower()` (character-wise lowering, ASCII-faithful). -/
def lower (s : String) : String := ⟨s.data.map Char.toLower⟩

/-- Helper for `tokenize`: Python `str.split()` with no separator splits on
runs of whitespace and produces no empty tokens.  `acc` holds the current
token, reversed. -/
def tokenizeAux : List Char → List Char → List String
  | [], acc => if acc = [] then [] else [⟨acc.reverse⟩]
  | c :: cs, acc =>
    if c.isWhitespace then
      if acc = [] then tokenizeAux cs [] else ⟨acc.reverse⟩ :: tokenizeAux cs []
    else tokenizeAux cs (c :: acc)

/-- Python `text.split()` as used in `clean_transcription` (`app.py:237`). -/
def tokenize (text : String) : List String := tokenizeAux text.data []

/-- Python `str.strip()` on a character list: drop leading and trailing
whitespace. -/
def stripChars (cs : List Char) : List Char :=
  ((cs.dropWhile Char.isWhitespace).reverse.dropWhile Char.isWhitespace).reverse

/-- Python `str.strip()`. -/
def strip (s : String) : String := ⟨stripChars s.data⟩

/-- Python `' '.join(words)`. -/
def joinSpace : List String → String
  | [] => ""
  | [w] => w
  | w :: ws => w ++ " " ++ joinSpace ws

/-- The token-walking loop of `clean_transcription` (`app.py:241-249`):
`prev_word` and `repeat_count` are the loop state; a word equal
(case-insensitively) to the previous word increments `repeat_count` and is
kept only while `repeat_count < 2` after the increment. -/
def cleanGo : List String → String → Nat → List String
  | [], _, _ => []
  | word :: ws, prev_word, repeat_count =>
    if lower word = lower prev_word then
      if repeat_count + 1 < 2 then word :: cleanGo ws word (repeat_count + 1)
      else cleanGo ws word (repeat_count + 1)
    else word :: cleanGo ws word 0

/-- `clean_transcription` (`app.py:233-251`): tokenize on whitespace, drop
excess immediate case-insensitive repetitions, re-join with single spaces,
strip. -/
def clean_transcription (text : String) : String :=
  strip (joinSpace (cleanGo (tokenize text) "" 0))

/-- Specification-side helper: `runsAux v ws = (r, gs)` where `r` is the
longest prefix of `ws` extending the run of tokens case-insensitively equal
to `v`, and `gs` is the list of subsequent maximal case-insensitive runs. -/
def runsAux : String → List String → List String × List (List String)
  | _, [] => ([], [])
  | v, w :: ws =>
    if lower w = lower v then
      (w :: (runsAux w ws).1, (runsAux w ws).2)
    else
      ([], (w :: (runsAux w ws).1) :: (runsAux w ws).2)

/-- Specification-side grouping of a token list into its maximal runs of
case-insensitively identical tokens. -/
def runs : List String → List (List String)
  | [] => []
  | w :: ws => (w :: (runsAux w ws).1) :: (runsAux w ws).2

/-- Keep the first two tokens of every maximal run. -/
def flatTake2 (gs : List (List String)) : List String :=
  gs.flatMap (fun g => g.take 2)

/-- The special symbols of `validate_password`'s last rule
(`app.py:90`), i.e. the character class of the regex. -/
def specialSymbols : List Char :=
  ['!', '@', '#', '$', '%', Char.ofNat 94, '&', '*', '(', ')', ',', '.', '?',
   Char.ofNat 34, ':', Char.ofNat 123, Char.ofNat 125, '|', '<', '>']

/-- `validate_password` (`app.py:80-92`).  `re.search(r"[A-Z]")` etc. are
modelled by ASCII character-class membership.  Returns the `(bool, message)`
pair of the Python function. -/
def validate_password (password : String) : Bool × String :=
  if password.data.length < 8 then
    (false, "Password must be at least 8 characters long")
  else if ¬ password.data.any Char.isUpper then
    (false, "Password must contain at least one uppercase letter (A-Z)")
  else if ¬ password.data.any Char.isLower then
    (false, "Password must contain at least one lowercase letter (a-z)")
  else if ¬ password.data.any Char.isDigit then
    (false, "Password must contain at least one number (0-9)")
  else if ¬ password.data.any (fun c => c ∈ specialSymbols) then
    (false, "Password must contain at least one special symbol (!@#$%^&*)")
  else (true, "Password is strong!")

/-- A flashcard `{"q": ..., "a": ...}` from the generated study package. -/
structure Flashcard where
  q : String
  a : String
deriving DecidableEq

/-- A quiz question `{"question": ..., "options": [...], "answer": ...}`. -/
structure QuizQuestion where
  question : String
  options : List String
  answer : String
deriving DecidableEq

/-- Placeholder question used only to state indexed lookups with `getD`. -/
def defaultQ : QuizQuestion := ⟨"", [], ""⟩

/-- `quiz_questions = st.session_state.quiz_data["quiz"][:5]` (`app.py:644`). -/
def clipQuiz (quiz : List QuizQuestion) : List QuizQuestion := quiz.take 5

/-- Python `user_answers[i] == q["answer"]` where the selection may be
`None`: `None == s` is `False`, otherwise exact string equality. -/
def optEq (o : Option String) (a : String) : Bool :=
  match o with
  | some s => decide (s = a)
  | none => false

/-- `score = sum(1 for i, q in enumerate(quiz_questions) if user_answers[i]
== q["answer"])` (`app.py:679`), for selections and questions of equal
length. -/
def computeScore (qs : List QuizQuestion) (ans : List (Option String)) : Nat :=
  (qs.zip ans).countP (fun p => optEq p.2 p.1.answer)

/-- Python f-string `f"{score}/{total}"` (`app.py:699`). -/
def formatScore (score total : Nat) : String :=
  toString score ++ "/" ++ toString total

/-- `st.session_state.quiz_results` as stored on submission
(`app.py:684-690`).  The float `percent` is modelled as a rational. -/
structure QuizResults where
  score : Nat
  total : Nat
  percent : ℚ
  user_answers : List (Option String)
  questions : List QuizQuestion

/-- One entry of the per-user history list (`app.py:695-701`). -/
structure HistoryEntry where
  time : String
  notes : String
  flashcards : List Flashcard
  quiz_score : String
  percentage : ℚ

/-- The session fields mutated by quiz submission and retake. -/
structure SessionState where
  quiz_submitted : Bool
  quiz_results : Option QuizResults
  history : List HistoryEntry
  total_quizzes : Nat
  total_score : Nat

/-- The submit handler of the quiz form (`app.py:676-708`): if every
question has a selection, compute score/percent, store the results, set
`quiz_submitted`, append a history entry and bump the totals; otherwise
leave the whole state unchanged and show the "answer all questions"
message.  The returned `Bool` is `true` iff the rejection message was
shown.  (`now`, `notes`, `fcs` are the timestamp and the study-package
fields copied into the history entry.)  Caveat: for `qs = []` Python would
raise `ZeroDivisionError` computing `percent`; the claims below therefore
only quantify over non-empty question sets. -/
def submitQuiz (qs : List QuizQuestion) (ans : List (Option String))
    (now notes : String) (fcs : List Flashcard) (s : SessionState) :
    SessionState × Bool :=
  if ans.all Option.isSome then
    (⟨true,
      some ⟨computeScore qs ans, qs.length,
            (computeScore qs ans : ℚ) / (qs.length : ℚ) * 100, ans, qs⟩,
      s.history ++
        [⟨now, notes, fcs, formatScore (computeScore qs ans) qs.length,
          (computeScore qs ans : ℚ) / (qs.length : ℚ) * 100⟩],
      s.total_quizzes + 1,
      s.total_score + computeScore qs ans⟩, false)
  else (s, true)

/-- The "Retake Quiz" button handler (`app.py:745-748`): clear
`quiz_submitted` and `quiz_results`, touch nothing else.  The quiz
navigation button (`app.py:608-612`) performs the same reset. -/
def retake (s : SessionState) : SessionState :=
  ⟨false, none, s.history, s.total_quizzes, s.total_score⟩

/-- Session states reachable from the fresh session (`app.py:194-203`,
history/totals initialised empty at sign-up, `app.py:155-160`) by quiz
submissions and retakes/resets. -/
inductive Reachable : SessionState → Prop where
  | init : Reachable ⟨false, none, [], 0, 0⟩
  | submit (qs : List QuizQuestion) (ans : List (Option String))
      (now notes : String) (fcs : List Flashcard) (s : SessionState)
      (hq : qs ≠ []) (hs : Reachable s) :
      Reachable (submitQuiz qs ans now notes fcs s).1
  | retakeStep (s : SessionState) (hs : Reachable s) : Reachable (retake s)

/-- The three transcription backends, in the declared preference order
(`spec.md` §4.1). -/
inductive Backend where
  | whisper
  | assemblyai
  | sr
deriving DecidableEq

/-- Per-request transcription environment: the availability flags probed
at import time (`app.py:12-31`), the AssemblyAI key lookup
(`app.py:395`), and each backend's outcome when invoked (`some raw` for a
returned transcript, `none` for an exception / error status). -/
structure TranscriptionEnv where
  whisper_available : Bool
  assemblyai_available : Bool
  assemblyai_key : Bool
  sr_available : Bool
  whisper_outcome : Option String
  assemblyai_outcome : Option String
  sr_outcome : Option String

/-- `cleaned_text if cleaned_text else raw_text` (`app.py:376`, `425`). -/
def storeCleaned (raw : String) : String :=
  if clean_transcription raw = "" then raw else clean_transcription raw

/-- The speech_recognition variant: `cleaned_text if
len(cleaned_text.strip()) > 0 else raw_text` (`app.py:484-487`). -/
def storeCleanedSR (raw : String) : String :=
  if 0 < (strip (clean_transcription raw)).data.length
  then clean_transcription raw else raw

/-- `st.session_state.transcribed_text` after the
`if WHISPER_AVAILABLE: ... elif ASSEMBLYAI_AVAILABLE: ...` stage
(`app.py:343-441`).  On any exception or non-completed status the stored
transcript is still the empty string. -/
def firstStageText (e : TranscriptionEnv) : String :=
  if e.whisper_available then
    match e.whisper_outcome with
    | some raw => storeCleaned raw
    | none => ""
  else if e.assemblyai_available then
    if e.assemblyai_key then
      match e.assemblyai_outcome with
      | some raw => storeCleaned raw
      | none => ""
    else ""
  else ""

/-- The transcript produced by the speech_recognition fallback branch
(`app.py:444-513`); `""` when the recognizer raises. -/
def srStage (e : TranscriptionEnv) : String :=
  match e.sr_outcome with
  | some raw => storeCleanedSR raw
  | none => ""

/-- The final stored transcript: the fallback branch runs iff the first
stage left the transcript empty and speech_recognition is importable
(`app.py:444`). -/
def finalText (e : TranscriptionEnv) : String :=
  if firstStageText e = "" ∧ e.sr_available then srStage e
  else firstStageText e

/-- Whether the `"❌ No transcription service available"` error is shown:
the `elif not st.session_state.transcribed_text` branch (`app.py:515-518`),
reached only when the fallback `if` was false. -/
def noServiceErrorShown (e : TranscriptionEnv) : Bool :=
  decide (firstStageText e = "") && ! e.sr_available

/-- Which backends the request actually invokes, in order: Whisper when
importable (`app.py:343`); otherwise AssemblyAI when importable and a key
is configured (`app.py:394-396`); then speech_recognition iff the
transcript is still empty (`app.py:444`). -/
def attempts (e : TranscriptionEnv) : List Backend :=
  (if e.whisper_available then [Backend.whisper]
   else if e.assemblyai_available && e.assemblyai_key then [Backend.assemblyai]
   else [])
  ++ (if firstStageText e = "" ∧ e.sr_available then [Backend.sr] else [])

/-- The transcript display (`app.py:523`) is gated on
`st.session_state.transcribed_text.strip()` being truthy. -/
def transcriptDisplayed (e : TranscriptionEnv) : Bool :=
  decide ((strip (finalText e)).data ≠ [])

/-- The study-material generation section (`app.py:547`) is gated on a
truthy (non-empty) transcript. -/
def generationEnabled (e : TranscriptionEnv) : Bool :=
  decide (finalText e ≠ "")

/-- The backtick character (0x60). -/
def backtick : Char := Char.ofNat 96

/-- The fenced-code-block marker, three backticks. -/
def fence : List Char := [backtick, backtick, backtick]

/-- Left brace / right brace / double quote / backslash as named characters. -/
def lbrace : Char := Char.ofNat 123

def rbrace : Char := Char.ofNat 125

def quoteChar : Char := Char.ofNat 34

def backslashChar : Char := Char.ofNat 92

/-- Everything before the first occurrence of the fence marker: models
taking element `[1]` of Python `raw_text.split("⋯")` with the fence as
separator, for a string that starts with the fence (`app.py:575-576`). -/
def takeUntilFence : List Char → List Char
  | [] => []
  | c :: cs =>
    if c = backtick ∧ cs.take 2 = [backtick, backtick] then []
    else c :: takeUntilFence cs

/-- Whether three consecutive backticks occur anywhere in the list. -/
def hasFence : List Char → Bool
  | [] => false
  | c :: cs =>
    (decide (c = backtick ∧ cs.take 2 = [backtick, backtick])) || hasFence cs

/-- Python `raw_text.replace("json", "")` (`app.py:577`): delete every
(left-to-right, non-overlapping) occurrence of the four characters
`j`,`s`,`o`,`n`. -/
def removeJson : List Char → List Char
  | 'j' :: 's' :: 'o' :: 'n' :: cs => removeJson cs
  | c :: cs => c :: removeJson cs
  | [] => []

/-- The string handed to `json.loads` (`app.py:574-578`): strip, drop a
leading fenced-block marker (everything from a leading fence up to the next
fence, via `split`), delete all `"json"` substrings, strip again. -/
def extract_payload (resp : List Char) : List Char :=
  let raw1 := stripChars resp
  let raw2 := if raw1.take 3 = fence then takeUntilFence (raw1.drop 3) else raw1
  stripChars (removeJson raw2)

/-- The model response `resp` wrapped in a fenced code block with a leading
`json` language tag, the shape the round-trip claim quantifies over. -/
def fenceWrap (t : String) : String :=
  ⟨fence ++ ('j' :: 's' :: 'o' :: 'n' :: Char.ofNat 10 :: t.data) ++
    (Char.ofNat 10 :: fence)⟩

/-- Parsed JSON values.  Number lexemes are kept as raw strings (the study
package schema only involves strings, arrays and objects). -/
inductive JValue where
  | jnull
  | jbool (b : Bool)
  | jnum (lexeme : String)
  | jstr (s : String)
  | jarr (elems : List JValue)
  | jobj (fields : List (String × JValue))

/-- JSON whitespace (as accepted by `json.loads`). -/
def jsonWS (c : Char) : Bool :=
  c = ' ' || c = Char.ofNat 9 || c = Char.ofNat 10 || c = Char.ofNat 13

def skipWS (cs : List Char) : List Char := cs.dropWhile jsonWS

/-- Hexadecimal digit value, for `\u` escapes. -/
def hexVal (c : Char) : Option Nat :=
  if '0' ≤ c ∧ c ≤ '9' then some (c.toNat - 48)
  else if 'a' ≤ c ∧ c ≤ 'f' then some (c.toNat - 87)
  else if 'A' ≤ c ∧ c ≤ 'F' then some (c.toNat - 55)
  else none

/-- JSON string body (after the opening quote): returns the decoded string
and the rest of the input after the closing quote.  Unescaped control
characters and invalid escapes are rejected, as by `json.loads`. -/
def parseStringBody : List Char → List Char → Option (String × List Char)
  | [], _ => none
  | c :: cs, acc =>
    if c = quoteChar then some (⟨acc.reverse⟩, cs)
    else if c = backslashChar then
      match cs with
      | [] => none
      | e :: cs2 =>
        if e = quoteChar then parseStringBody cs2 (quoteChar :: acc)
        else if e = backslashChar then parseStringBody cs2 (backslashChar :: acc)
        else if e = '/' then parseStringBody cs2 ('/' :: acc)
        else if e = 'b' then parseStringBody cs2 (Char.ofNat 8 :: acc)
        else if e = 'f' then parseStringBody cs2 (Char.ofNat 12 :: acc)
        else if e = 'n' then parseStringBody cs2 (Char.ofNat 10 :: acc)
        else if e = 'r' then parseStringBody cs2 (Char.ofNat 13 :: acc)
        else if e = 't' then parseStringBody cs2 (Char.ofNat 9 :: acc)
        else if e = 'u' then
          match cs2 with
          | h1 :: h2 :: h3 :: h4 :: cs3 =>
            match hexVal h1, hexVal h2, hexVal h3, hexVal h4 with
            | some a, some b, some c1, some d =>
              parseStringBody cs3
                (Char.ofNat (((a * 16 + b) * 16 + c1) * 16 + d) :: acc)
            | _, _, _, _ => none
          | _ => none
        else none
    else if c.toNat < 32 then none
    else parseStringBody cs (c :: acc)

/-- Characters that may occur in a JSON number lexeme. -/
def numChar (c : Char) : Bool :=
  c.isDigit || c = '-' || c = '+' || c = '.' || c = 'e' || c = 'E'

/-- A number lexeme (kept raw). -/
def parseNumber (cs : List Char) : Option (JValue × List Char) :=
  if cs.takeWhile numChar = [] then none
  else some (JValue.jnum ⟨cs.takeWhile numChar⟩, cs.dropWhile numChar)

mutual

/-- Fuel-indexed JSON value parser modelling `json.loads`. -/
def parseValue : Nat → List Char → Option (JValue × List Char)
  | 0, _ => none
  | Nat.succ fuel, cs =>
    match skipWS cs with
    | [] => none
    | c :: rest =>
      if c = quoteChar then
        match parseStringBody rest [] with
        | some (s, r) => some (JValue.jstr s, r)
        | none => none
      else if c = 'n' then
        if rest.take 3 = ['u', 'l', 'l'] then some (JValue.jnull, rest.drop 3)
        else none
      else if c = 't' then
        if rest.take 3 = ['r', 'u', 'e'] then
          some (JValue.jbool true, rest.drop 3)
        else none
      else if c = 'f' then
        if rest.take 4 = ['a', 'l', 's', 'e'] then
          some (JValue.jbool false, rest.drop 4)
        else none
      else if c = '[' then
        match skipWS rest with
        | ']' :: r2 => some (JValue.jarr [], r2)
        | _ =>
          match parseElems fuel rest with
          | some (es, r2) => some (JValue.jarr es, r2)
          | none => none
      else if c = lbrace then
        match skipWS rest with
        | [] => none
        | d :: r2 =>
          if d = rbrace then some (JValue.jobj [], r2)
          else
            match parseMembers fuel rest with
            | some (fs, r3) => some (JValue.jobj fs, r3)
            | none => none
      else if c.isDigit ∨ c = '-' then parseNumber (c :: rest)
      else none

/-- Comma-separated array elements up to the closing bracket. -/
def parseElems : Nat → List Char → Option (List JValue × List Char)
  | 0, _ => none
  | Nat.succ fuel, cs =>
    match parseValue fuel cs with
    | none => none
    | some (v, r) =>
      match skipWS r with
      | ',' :: r2 =>
        match parseElems fuel r2 with
        | some (vs, r3) => some (v :: vs, r3)
        | none => none
      | ']' :: r2 => some ([v], r2)
      | _ => none

/-- Comma-separated object members up to the closing brace. -/
def parseMembers : Nat → List Char → Option (List (String × JValue) × List Char)
  | 0, _ => none
  | Nat.succ fuel, cs =>
    match skipWS cs with
    | [] => none
    | c :: rest =>
      if c = quoteChar then
        match parseStringBody rest [] with
        | none => none
        | some (k, r) =>
          match skipWS r with
          | ':' :: r2 =>
            match parseValue fuel r2 with
            | none => none
            | some (v, r3) =>
              match skipWS r3 with
              | [] => none
              | ',' :: r4 =>
                match parseMembers fuel r4 with
                | some (fs, r5) => some ((k, v) :: fs, r5)
                | none => none
              | d :: r4 => if d = rbrace then some ([(k, v)], r4) else none
          | _ => none
      else none

end

/-- `json.loads`: parse one JSON value and require only whitespace after
it.  The fuel `2*length+8` strictly dominates the recursion depth (each
level of nesting or element consumes input). -/
def jsonParse (s : String) : Option JValue :=
  match parseValue (2 * s.data.length + 8) s.data with
  | some (v, r) => if skipWS r = [] then some v else none
  | none => none

/-- The full response-parsing stage (`app.py:574-578`): fence/tag
stripping followed by `json.loads`. -/
def parse_response (resp : String) : Option JValue :=
  jsonParse ⟨extract_payload resp.data⟩

/-- Whether a parsed value is a JSON string. -/
def isJStr : JValue → Bool
  | JValue.jstr _ => true
  | _ => false

/-- Modelled from the spec: a flashcard object `{"q": ..., "a": ...}` with
both values strings (the prompt's required schema, `app.py:560-564`). -/
def flashcardOk : JValue → Bool
  | JValue.jobj [(k1, JValue.jstr _), (k2, JValue.jstr _)] =>
    decide (k1 = "q" ∧ k2 = "a")
  | _ => false

/-- Modelled from the spec: a quiz object with `question`, 4 string
`options`, and an `answer` equal to one of the options
(`app.py:565-569`, `spec.md` §3). -/
def quizItemOk : JValue → Bool
  | JValue.jobj [(k1, JValue.jstr _), (k2, JValue.jarr opts),
                 (k3, JValue.jstr ansr)] =>
    decide (k1 = "question" ∧ k2 = "options" ∧ k3 = "answer") &&
    decide (opts.length = 4) && opts.all isJStr &&
    opts.any (fun o =>
      match o with
      | JValue.jstr s => decide (s = ansr)
      | _ => false)
  | _ => false

/-- Modelled from the spec: the required response schema — an object with
exactly the keys `notes` (string), `flashcards` (array of flashcard
objects) and `quiz` (array of exactly 5 quiz objects)
(`app.py:556-569`, `spec.md` §4.2). -/
def schemaOk : JValue → Bool
  | JValue.jobj [(k1, JValue.jstr _), (k2, JValue.jarr fcs),
                 (k3, JValue.jarr qz)] =>
    decide (k1 = "notes" ∧ k2 = "flashcards" ∧ k3 = "quiz") &&
    fcs.all flashcardOk && decide (qz.length = 5) && qz.all quizItemOk
  | _ => false

/-- Environment refuting strict-order fallback: Whisper importable but its
call raises; AssemblyAI importable with a key; speech_recognition
importable. -/
def c2env : TranscriptionEnv :=
  ⟨true, true, true, true, none, some "hello world", some "hello world"⟩

/-- Environment where the only available backend (speech_recognition) is
attempted and fails. -/
def c8env : TranscriptionEnv := ⟨false, false, false, true, none, none, none⟩

/-- One quiz entry of the schema-satisfying JSON used against the
round-trip claim. -/
def quizItemStr : String :=
  "\x7b\"question\": \"Q1\", \"options\": [\"a\", \"b\", \"c\", \"d\"], " ++
  "\"answer\": \"a\"\x7d"

/-- A JSON text satisfying the required schema whose `notes` value
contains the fence marker. -/
def T0 : String :=
  "\x7b\"notes\": \"md ``` md\", \"flashcards\": " ++
  "[\x7b\"q\": \"Q\", \"a\": \"A\"\x7d], " ++
  "\"quiz\": [" ++ quizItemStr ++ ", " ++ quizItemStr ++ ", " ++
  quizItemStr ++ ", " ++ quizItemStr ++ ", " ++ quizItemStr ++ "]\x7d"

/-!  ## Theorems  -/

/-- **C5.**  For every parsed model response whose quiz array has more than
5 entries, the quiz used for display and scoring (`app.py:644`) contains
exactly the first 5 entries and every entry beyond the fifth is dropped;
responses with 5 or fewer entries are used unchanged. -/
theorem C5_quiz_clip (quiz : List QuizQuestion) :
    (clipQuiz quiz).length = min 5 quiz.length ∧
    (∀ i, i < (clipQuiz quiz).length →
      (clipQuiz quiz).getD i defaultQ = quiz.getD i defaultQ) ∧
    (5 < quiz.length → (clipQuiz quiz).length = 5 ∧ clipQuiz quiz = quiz.take 5) ∧
    (quiz.length ≤ 5 → clipQuiz quiz = quiz) := by
  refine ⟨List.length_take 5 quiz, ?_, fun h => ⟨?_, rfl⟩, fun h => ?_⟩
  · intro i hi
    have hi5 : i < 5 := lt_of_lt_of_le hi (by simp [clipQuiz, List.length_take])
    simp [clipQuiz, List.getD_eq_getElem?_getD, List.getElem?_take, hi5]
  · simp [clipQuiz, List.length_take]
    omega
  · exact List.take_of_length_le h

/-- Witness for C5 at a concrete 6-element quiz list. -/
theorem C5_witness :
    (5 < (List.replicate 6 defaultQ).length →
      (clipQuiz (List.replicate 6 defaultQ)).length = 5 ∧
      clipQuiz (List.replicate 6 defaultQ) = (List.replicate 6 defaultQ).take 5) ∧
    ((clipQuiz (List.replicate 6 defaultQ)).length = 5 ∧
      clipQuiz (List.replicate 6 defaultQ) = (List.replicate 6 defaultQ).take 5) := by
  refine ⟨(C5_quiz_clip (List.replicate 6 defaultQ)).2.2.1, ?_⟩
  exact (C5_quiz_clip (List.replicate 6 defaultQ)).2.2.1 (by decide)

/-- **C6.**  A quiz submission while at least one question has a `None`
selection is rejected with a user-visible message and causes no state
transition: the session state (results, submitted flag, history, totals)
is returned unchanged (`app.py:669-708`). -/
theorem C6_incomplete_submission (qs : List QuizQuestion)
    (ans : List (Option String)) (now notes : String) (fcs : List Flashcard)
    (s : SessionState) (h : none ∈ ans) :
    submitQuiz qs ans now notes fcs s = (s, true) := by
  have hall : ¬ (ans.all Option.isSome = true) := by
    intro hA
    have := List.all_eq_true.mp hA none h
    simp at this
  simp [submitQuiz, hall]

/-- Witness for C6: a concrete half-answered two-question submission. -/
theorem C6_witness :
    submitQuiz [⟨"q1", ["a", "b"], "a"⟩, ⟨"q2", ["c", "d"], "c"⟩]
      [some "a", none] "t" "n" [] ⟨false, none, [], 0, 0⟩ =
      (⟨false, none, [], 0, 0⟩, true) :=
  C6_incomplete_submission _ _ _ _ _ _ (by decide)

/-- **C7.**  For every non-empty raw transcript, the stored transcript is
never empty: both store policies (`app.py:376`, `app.py:484-487`) fall
back to the raw text when the cleanup result is empty. -/
theorem C7_cleanup_fallback (raw : String) (h : raw ≠ "") :
    storeCleaned raw ≠ "" ∧ storeCleanedSR raw ≠ "" := by
  constructor
  · unfold storeCleaned
    split
    · exact h
    · assumption
  · unfold storeCleanedSR
    split
    · rename_i hlen
      intro hc
      rw [hc] at hlen
      simp [strip, stripChars] at hlen
    · exact h

/-- Witness for C7 at the all-whitespace raw transcript `"  "` (cleanup
yields `""`, the raw text is stored). -/
theorem C7_witness : storeCleaned "  " ≠ "" ∧ storeCleanedSR "  " ≠ "" :=
  C7_cleanup_fallback "  " (by decide)

/-- **C10.**  `validate_password` accepts exactly the passwords of length
at least 8 containing an uppercase letter, a lowercase letter, a digit and
one of the special symbols; on rejection the message of the first failed
rule in the fixed order length → upper → lower → digit → special is
returned, and on acceptance the success message (`app.py:80-92`). -/
theorem C10_validate_password (p : String) :
    ((validate_password p).1 = true ↔
      (8 ≤ p.data.length ∧ (∃ c ∈ p.data, Char.isUpper c) ∧
       (∃ c ∈ p.data, Char.isLower c) ∧ (∃ c ∈ p.data, Char.isDigit c) ∧
       (∃ c ∈ p.data, c ∈ specialSymbols))) ∧
    (p.data.length < 8 →
      (validate_password p).2 = "Password must be at least 8 characters long") ∧
    (8 ≤ p.data.length → (∀ c ∈ p.data, ¬ Char.isUpper c) →
      (validate_password p).2 =
        "Password must contain at least one uppercase letter (A-Z)") ∧
    (8 ≤ p.data.length → (∃ c ∈ p.data, Char.isUpper c) →
      (∀ c ∈ p.data, ¬ Char.isLower c) →
      (validate_password p).2 =
        "Password must contain at least one lowercase letter (a-z)") ∧
    (8 ≤ p.data.length → (∃ c ∈ p.data, Char.isUpper c) →
      (∃ c ∈ p.data, Char.isLower c) → (∀ c ∈ p.data, ¬ Char.isDigit c) →
      (validate_password p).2 =
        "Password must contain at least one number (0-9)") ∧
    (8 ≤ p.data.length → (∃ c ∈ p.data, Char.isUpper c) →
      (∃ c ∈ p.data, Char.isLower c) → (∃ c ∈ p.data, Char.isDigit c) →
      (∀ c ∈ p.data, c ∉ specialSymbols) →
      (validate_password p).2 =
        "Password must contain at least one special symbol (!@#$%^&*)") ∧
    ((8 ≤ p.data.length ∧ (∃ c ∈ p.data, Char.isUpper c) ∧
      (∃ c ∈ p.data, Char.isLower c) ∧ (∃ c ∈ p.data, Char.isDigit c) ∧
      (∃ c ∈ p.data, c ∈ specialSymbols)) →
      (validate_password p).2 = "Password is strong!") := by
  unfold validate_password
  split_ifs with h1 h2 h3 h4 h5 <;> simp_all [List.any_eq_true]

/-- Witness for C10: a concrete accepted password and a concrete
first-rule rejection. -/
theorem C10_witness :
    ((validate_password "Abcdef1!").1 = true) ∧
    ((validate_password "abcdef1!").2 =
      "Password must contain at least one uppercase letter (A-Z)") := by
  constructor
  · exact (C10_validate_password "Abcdef1!").1.mpr (by decide)
  · exact (C10_validate_password "abcdef1!").2.2.1 (by decide) (by decide)


/-- The zipped score of `app.py:679` equals the per-index count of exact
string matches over the question indices. -/
theorem computeScore_eq_range (qs : List QuizQuestion) (ans : List String)
    (h : ans.length = qs.length) :
    computeScore qs (ans.map some) =
      (List.range qs.length).countP
        (fun i => decide (ans.getD i "" = (qs.getD i defaultQ).answer)) := by
  induction qs generalizing ans with
  | nil => simp [computeScore]
  | cons q qs ih =>
    cases ans with
    | nil => simp at h
    | cons a ans =>
      simp only [List.length_cons, Nat.succ_inj] at h
      simp only [List.length_cons]
      rw [List.range_succ_eq_map]
      simp only [computeScore, List.map_cons, List.zip_cons_cons,
        List.countP_cons, List.countP_map]
      have hrec := ih ans h
      simp only [computeScore] at hrec
      rw [hrec]
      simp only [optEq, Nat.add_comm]
      congr 1

/-- The score never exceeds the number of questions. -/
theorem computeScore_le (qs : List QuizQuestion) (ans : List (Option String)) :
    computeScore qs ans ≤ qs.length :=
  le_trans (List.countP_le_length _) (by simp [List.length_zip])

/-- **C4.**  For every non-empty question list and complete selection
assignment of the same length, submission scores exactly the number of
questions whose selected option is string-identical to the question's
`answer`; `percent = score / total * 100` (as exact rational arithmetic);
and `0 ≤ score ≤ number of questions`.  Scoring is a pure function of the
questions and selections (it is a Lean function of exactly these
arguments). -/
theorem C4_scoring (qs : List QuizQuestion) (ans : List String)
    (hlen : ans.length = qs.length) (hne : qs ≠ []) (now notes : String)
    (fcs : List Flashcard) (s : SessionState) :
    ∃ r : QuizResults,
      ((submitQuiz qs (ans.map some) now notes fcs s).1).quiz_results = some r ∧
      r.score = (List.range qs.length).countP
        (fun i => decide (ans.getD i "" = (qs.getD i defaultQ).answer)) ∧
      r.total = qs.length ∧
      r.percent = (r.score : ℚ) / (qs.length : ℚ) * 100 ∧
      r.score ≤ qs.length := by
  have hall : (ans.map some).all Option.isSome = true := by
    simp [List.all_eq_true]
  refine ⟨⟨computeScore qs (ans.map some), qs.length,
    (computeScore qs (ans.map some) : ℚ) / (qs.length : ℚ) * 100,
    ans.map some, qs⟩, ?_, ?_, rfl, rfl, computeScore_le qs (ans.map some)⟩
  · simp [submitQuiz, hall]
  · exact computeScore_eq_range qs ans hlen

/-- Witness for C4 at a concrete 2-question quiz with one correct
selection. -/
theorem C4_witness :
    ∃ r : QuizResults,
      ((submitQuiz [⟨"q1", ["a", "b"], "a"⟩, ⟨"q2", ["c", "d"], "c"⟩]
          (["a", "d"].map some) "t" "n" [] ⟨false, none, [], 0, 0⟩).1).quiz_results
        = some r ∧
      r.score = (List.range 2).countP
        (fun i => decide ((["a", "d"].getD i "" =
          ([⟨"q1", ["a", "b"], "a"⟩, ⟨"q2", ["c", "d"], "c"⟩].getD i
            defaultQ).answer))) ∧
      r.total = 2 ∧
      r.percent = (r.score : ℚ) / (2 : ℚ) * 100 ∧
      r.score ≤ 2 :=
  C4_scoring [⟨"q1", ["a", "b"], "a"⟩, ⟨"q2", ["c", "d"], "c"⟩] ["a", "d"]
    rfl (by decide) "t" "n" [] ⟨false, none, [], 0, 0⟩

/-- **C9.**  In every reachable session state, being in the Scored state
(`quiz_submitted = true`) implies the stored QuizAttempt has already been
appended to the history: the last history entry records exactly its
score/total and percentage (`app.py:683-706`).  The retake action returns
to the Unanswered state (flag cleared, attempt discarded) while leaving
the history — and hence the previously appended attempt — and the totals
untouched (`app.py:745-748`; the quiz form is re-instantiated with no
pre-selection, `app.py:658-663`). -/
theorem C9_scored_history (s : SessionState) (hs : Reachable s) :
    (s.quiz_submitted = true →
      ∃ r e, s.quiz_results = some r ∧ s.history.getLast? = some e ∧
        e.quiz_score = formatScore r.score r.total ∧
        e.percentage = r.percent) ∧
    (retake s).quiz_submitted = false ∧ (retake s).quiz_results = none ∧
    (retake s).history = s.history ∧
    (retake s).total_quizzes = s.total_quizzes ∧
    (retake s).total_score = s.total_score := by
  refine ⟨?_, rfl, rfl, rfl, rfl, rfl⟩
  induction hs with
  | init => intro h; simp at h
  | submit qs ans now notes fcs s hq hs ih =>
    by_cases hall : ans.all Option.isSome = true
    · intro _
      refine ⟨⟨computeScore qs ans, qs.length,
        (computeScore qs ans : ℚ) / (qs.length : ℚ) * 100, ans, qs⟩,
        ⟨now, notes, fcs, formatScore (computeScore qs ans) qs.length,
          (computeScore qs ans : ℚ) / (qs.length : ℚ) * 100⟩, ?_, ?_, rfl, rfl⟩
      · simp [submitQuiz, hall]
      · simp [submitQuiz, hall]
    · have : submitQuiz qs ans now notes fcs s = (s, true) := by
        simp [submitQuiz, hall]
      rw [this]
      exact ih
  | retakeStep s hs ih => intro h; simp [retake] at h

/-- Witness for C9: the state reached by one complete submission from the
fresh session is Scored and its attempt is the last history entry. -/
theorem C9_witness :
    ∃ r e,
      ((submitQuiz [⟨"q1", ["a", "b"], "a"⟩] [some "a"] "t" "n" []
          ⟨false, none, [], 0, 0⟩).1).quiz_results = some r ∧
      ((submitQuiz [⟨"q1", ["a", "b"], "a"⟩] [some "a"] "t" "n" []
          ⟨false, none, [], 0, 0⟩).1).history.getLast? = some e ∧
      e.quiz_score = formatScore r.score r.total ∧
      e.percentage = r.percent :=
  (C9_scored_history _
    (Reachable.submit [⟨"q1", ["a", "b"], "a"⟩] [some "a"] "t" "n" []
      ⟨false, none, [], 0, 0⟩ (by decide) Reachable.init)).1 (by decide)

/-- **C2 counterexample.**  With all three backends importable and an
AssemblyAI key configured, a Whisper exception makes the request fall
through directly to speech_recognition: AssemblyAI — the next backend in
the declared preference order — is never attempted, because the
AssemblyAI branch is an `elif` on `WHISPER_AVAILABLE` (`app.py:394`), not
a fallback on Whisper failure. -/
theorem C2_counterexample :
    c2env.whisper_available = true ∧ c2env.assemblyai_available = true ∧
    c2env.assemblyai_key = true ∧ c2env.whisper_outcome = none ∧
    attempts c2env = [Backend.whisper, Backend.sr] ∧
    Backend.assemblyai ∉ attempts c2env := by
  refine ⟨rfl, rfl, rfl, rfl, by decide, by decide⟩

/-- **C2 amended.**  The dispatch tries at most one of the two premium
backends — Whisper whenever it is importable (even if it then fails),
otherwise AssemblyAI when importable with a key — and falls back to
speech_recognition exactly when that first stage leaves the transcript
empty; no backend is ever attempted twice, and AssemblyAI is never
attempted when Whisper is importable. -/
theorem C2_amended (e : TranscriptionEnv) :
    (attempts e).Nodup ∧
    (Backend.whisper ∈ attempts e ↔ e.whisper_available = true) ∧
    (Backend.assemblyai ∈ attempts e ↔
      (e.whisper_available = false ∧ e.assemblyai_available = true ∧
       e.assemblyai_key = true)) ∧
    (Backend.sr ∈ attempts e ↔
      (e.sr_available = true ∧ firstStageText e = "")) ∧
    (e.whisper_available = true → Backend.assemblyai ∉ attempts e) := by
  obtain ⟨wa, aa, ak, sa, wo, ao, so⟩ := e
  by_cases hfs : firstStageText ⟨wa, aa, ak, sa, wo, ao, so⟩ = "" <;>
    cases wa <;> cases aa <;> cases ak <;> cases sa <;>
      first
      | exact absurd rfl hfs
      | simp_all [attempts, firstStageText]

/-- Witness for C2 amended, at the counterexample environment. -/
theorem C2_amended_witness : Backend.assemblyai ∉ attempts c2env :=
  (C2_amended c2env).2.2.2.2 rfl

/-- **C8 counterexample.**  When speech_recognition is the only available
backend and it fails, every backend of the request has failed, the stored
transcript is empty — yet the "No transcription service available" error
is *not* shown (the code shows the recognizer-specific error instead,
`app.py:499-513`; the no-service branch `app.py:515` is an `elif` that is
unreachable once the speech_recognition branch was entered). -/
theorem C8_counterexample :
    c8env.whisper_available = false ∧ c8env.assemblyai_available = false ∧
    c8env.sr_available = true ∧ c8env.sr_outcome = none ∧
    attempts c8env = [Backend.sr] ∧
    finalText c8env = "" ∧
    noServiceErrorShown c8env = false := by
  refine ⟨rfl, rfl, rfl, rfl, by decide, by decide, by decide⟩

/-- **C8 amended.**  The "No transcription service available" error is
shown exactly when the premium stage leaves the transcript empty and
speech_recognition is not importable — in particular whenever no backend
is available at all, and whenever no backend was attempted.  When the
speech_recognition fallback itself fails, a recognizer-specific error is
shown instead.  An empty transcript is never presented as a success: the
transcript display and the generation stage are gated on a non-empty
transcript. -/
theorem C8_amended (e : TranscriptionEnv) :
    (noServiceErrorShown e = true ↔
      (firstStageText e = "" ∧ e.sr_available = false)) ∧
    ((e.whisper_available = false ∧ e.assemblyai_available = false ∧
      e.sr_available = false) → noServiceErrorShown e = true) ∧
    (attempts e = [] → noServiceErrorShown e = true) ∧
    (finalText e = "" →
      transcriptDisplayed e = false ∧ generationEnabled e = false) := by
  obtain ⟨wa, aa, ak, sa, wo, ao, so⟩ := e
  refine ⟨?_, ?_, ?_, ?_⟩
  · by_cases hfs : firstStageText ⟨wa, aa, ak, sa, wo, ao, so⟩ = "" <;>
      cases sa <;> simp_all [noServiceErrorShown]
  · rintro ⟨h1, h2, h3⟩
    subst h1; subst h2; subst h3
    simp [noServiceErrorShown, firstStageText]
  · intro h
    by_cases hfs : firstStageText ⟨wa, aa, ak, sa, wo, ao, so⟩ = "" <;>
      cases wa <;> cases aa <;> cases ak <;> cases sa <;>
        first
        | exact absurd rfl hfs
        | simp_all [attempts, noServiceErrorShown]
  · intro h
    constructor
    · simp [transcriptDisplayed, h, strip, stripChars]
    · simp [generationEnabled, h]

/-- Witness for C8 amended: with no backend importable the no-service
error is shown. -/
theorem C8_amended_witness :
    noServiceErrorShown ⟨false, false, false, false, none, none, none⟩ = true :=
  (C8_amended ⟨false, false, false, false, none, none, none⟩).2.1
    ⟨rfl, rfl, rfl⟩

/-- The run decomposition loses no token: current run plus later groups
flatten back to the input. -/
theorem runsAux_join (ws : List String) (v : String) :
    (runsAux v ws).1 ++ (runsAux v ws).2.flatten = ws := by
  induction ws generalizing v with
  | nil => simp [runsAux]
  | cons w ws ih =>
    by_cases h : lower w = lower v <;> simp [runsAux, h, ih w]

/-- `runs` is a partition of the token list into consecutive groups. -/
theorem runs_flatten (ws : List String) : (runs ws).flatten = ws := by
  cases ws with
  | nil => rfl
  | cons w ws =>
    simp only [runs, List.flatten_cons, List.cons_append]
    rw [runsAux_join ws w]

/-- Every token in the continuation of the current run is
case-insensitively equal to the run's representative. -/
theorem runsAux_run_ci (ws : List String) (v : String) :
    ∀ a ∈ (runsAux v ws).1, lower a = lower v := by
  induction ws generalizing v with
  | nil => simp [runsAux]
  | cons w ws ih =>
    by_cases h : lower w = lower v
    · simp only [runsAux, h, if_pos]
      intro a ha
      rcases List.mem_cons.mp ha with rfl | ha
      · exact h
      · exact (ih w a ha).trans h
    · simp [runsAux, h]

/-- The later groups are nonempty case-insensitively constant runs, the
first of them differs from the current run's representative, and adjacent
groups differ (maximality of the runs). -/
theorem runsAux_groups (ws : List String) (v : String) :
    (∀ g ∈ (runsAux v ws).2, g ≠ [] ∧ ∀ a ∈ g, ∀ b ∈ g, lower a = lower b) ∧
    ((runsAux v ws).2 ≠ [] →
      lower (((runsAux v ws).2.headD []).headD "") ≠ lower v) ∧
    List.Chain' (fun g h => lower (g.headD "") ≠ lower (h.headD ""))
      (runsAux v ws).2 := by
  induction ws generalizing v with
  | nil => simp [runsAux]
  | cons w ws ih =>
    by_cases h : lower w = lower v
    · simp only [runsAux, h, if_pos]
      obtain ⟨ih1, ih2, ih3⟩ := ih w
      exact ⟨ih1, fun hne => h ▸ ih2 hne, ih3⟩
    · simp only [runsAux, h, if_neg, not_false_iff]
      obtain ⟨ih1, ih2, ih3⟩ := ih w
      refine ⟨?_, ?_, ?_⟩
      · intro g hg
        rcases List.mem_cons.mp hg with rfl | hg
        · refine ⟨by simp, ?_⟩
          intro a ha b hb
          have hav : lower a = lower w := by
            rcases List.mem_cons.mp ha with rfl | ha
            · rfl
            · exact runsAux_run_ci ws w a ha
          have hbv : lower b = lower w := by
            rcases List.mem_cons.mp hb with rfl | hb
            · rfl
            · exact runsAux_run_ci ws w b hb
          rw [hav, hbv]
        · exact ih1 g hg
      · intro _
        simpa using h
      · rw [List.chain'_cons']
        refine ⟨?_, ih3⟩
        intro g hg
        cases hgs : (runsAux w ws).2 with
        | nil => rw [hgs] at hg; simp at hg
        | cons g0 gs =>
          rw [hgs] at hg
          simp only [List.head?_cons, Option.mem_def, Option.some.injEq] at hg
          subst hg
          have := ih2 (by rw [hgs]; simp)
          rw [hgs] at this
          simp only [List.headD_cons] at this
          intro heq
          exact this (by simpa using heq.symm)

/-- Characterization of the cleanup loop in terms of the run
decomposition: with `repeat_count = k` the loop keeps at most one more
token of the current run (exactly when `k = 0`) and two tokens of every
later run. -/
theorem cleanGo_eq (ws : List String) (v : String) (k : Nat) :
    cleanGo ws v k =
      (if k = 0 then (runsAux v ws).1.take 1 else []) ++
        flatTake2 (runsAux v ws).2 := by
  induction ws generalizing v k with
  | nil => simp [cleanGo, runsAux, flatTake2]
  | cons w ws ih =>
    by_cases h : lower w = lower v
    · rcases Nat.eq_zero_or_pos k with hk | hk
      · subst hk
        simp only [cleanGo, h, if_pos, Nat.zero_add, Nat.one_lt_two,
          runsAux, if_true]
        rw [ih w 1]
        simp
      · have hk2 : ¬ (k + 1 < 2) := by omega
        have hk0 : k ≠ 0 := by omega
        simp only [cleanGo, h, if_pos, hk2, if_false, runsAux, if_true]
        rw [ih w (k + 1)]
        simp [hk0, Nat.succ_ne_zero]
    · simp only [cleanGo, h, if_neg, not_false_iff, runsAux]
      rw [ih w 0]
      rcases Nat.eq_zero_or_pos k with hk | hk
      · subst hk
        simp [flatTake2]
      · have hk0 : k ≠ 0 := by omega
        simp [hk0, flatTake2]

/-- A nonempty string lowers to a nonempty string. -/
theorem lower_ne_empty (w : String) (h : w ≠ "") : lower w ≠ "" := by
  intro hl
  apply h
  have hd : (lower w).data = [] := by rw [hl]
  simp only [lower] at hd
  have : w.data = [] := List.map_eq_nil_iff.mp hd
  cases w with
  | mk d =>
    simp only at this
    rw [this]

/-- All tokens produced by the tokenizer are nonempty. -/
theorem tokenizeAux_ne_empty (cs : List Char) (acc : List Char) :
    ∀ w ∈ tokenizeAux cs acc, w ≠ "" := by
  induction cs generalizing acc with
  | nil =>
    intro w hw
    simp only [tokenizeAux] at hw
    split at hw
    · simp at hw
    · rename_i hacc
      rcases List.mem_singleton.mp hw with rfl
      intro he
      apply hacc
      have : acc.reverse = [] := by
        have := congrArg String.data he
        simpa using this
      simpa using this
  | cons c cs ih =>
    intro w hw
    simp only [tokenizeAux] at hw
    split at hw
    · split at hw
      · exact ih [] w hw
      · rename_i hacc
        rcases List.mem_cons.mp hw with rfl | hw
        · intro he
          apply hacc
          have : acc.reverse = [] := by
            have := congrArg String.data he
            simpa using this
          simpa using this
        · exact ih [] w hw
    · exact ih (c :: acc) w hw

/-- The cleanup loop started from the sentinel state keeps exactly the
first two tokens of every maximal case-insensitive run. -/
theorem cleanGo_runs (ws : List String) (h : ∀ w ∈ ws, w ≠ "") :
    cleanGo ws "" 0 = flatTake2 (runs ws) := by
  cases ws with
  | nil => rfl
  | cons w ws =>
    have hw : lower w ≠ lower "" := by
      have : lower "" = "" := rfl
      rw [this]
      exact lower_ne_empty w (h w (List.mem_cons_self w ws))
    simp only [cleanGo, hw, if_neg, not_false_iff]
    rw [cleanGo_eq ws w 0]
    simp only [runs, flatTake2, List.flatMap_cons, if_pos rfl]
    rw [List.take_succ_cons]
    simp

/-- **C1.**  The text-cleanup pass tokenizes on whitespace, and on the
resulting tokens keeps exactly the first two tokens of every maximal run
of case-insensitively identical tokens (so it never removes a token that
differs case-insensitively from its predecessor and collapses every run
of 3 or more to exactly 2), then re-joins the kept tokens with single
spaces; `runs` is a genuine partition into nonempty case-insensitively
constant groups with adjacent groups differing.  In particular the
spec's example transcript cleans as stated. -/
theorem C1_clean_transcription :
    (∀ text : String,
      clean_transcription text =
        strip (joinSpace (flatTake2 (runs (tokenize text))))) ∧
    (∀ ws : List String, (runs ws).flatten = ws) ∧
    (∀ ws : List String, ∀ g ∈ runs ws,
      g ≠ [] ∧ ∀ a ∈ g, ∀ b ∈ g, lower a = lower b) ∧
    (∀ ws : List String,
      List.Chain' (fun g h => lower (g.headD "") ≠ lower (h.headD ""))
        (runs ws)) ∧
    clean_transcription
        "the the the cell cell cell membrane is is semi permeable" =
      "the the cell cell membrane is is semi permeable" := by
  refine ⟨?_, runs_flatten, ?_, ?_, by decide⟩
  · intro text
    unfold clean_transcription
    rw [cleanGo_runs (tokenize text) (tokenizeAux_ne_empty text.data [])]
  · intro ws g hg
    cases ws with
    | nil => simp [runs] at hg
    | cons w ws =>
      simp only [runs] at hg
      rcases List.mem_cons.mp hg with rfl | hg
      · refine ⟨by simp, ?_⟩
        intro a ha b hb
        have hav : lower a = lower w := by
          rcases List.mem_cons.mp ha with rfl | ha
          · rfl
          · exact runsAux_run_ci ws w a ha
        have hbv : lower b = lower w := by
          rcases List.mem_cons.mp hb with rfl | hb
          · rfl
          · exact runsAux_run_ci ws w b hb
        rw [hav, hbv]
      · exact (runsAux_groups ws w).1 g hg
  · intro ws
    cases ws with
    | nil => simp [runs]
    | cons w ws =>
      simp only [runs]
      rw [List.chain'_cons']
      refine ⟨?_, (runsAux_groups ws w).2.2⟩
      intro g hg
      cases hgs : (runsAux w ws).2 with
      | nil => rw [hgs] at hg; simp at hg
      | cons g0 gs =>
        rw [hgs] at hg
        simp only [List.head?_cons, Option.mem_def, Option.some.injEq] at hg
        subst hg
        have := (runsAux_groups ws w).2.1 (by rw [hgs]; simp)
        rw [hgs] at this
        simp only [List.headD_cons] at this
        intro heq
        exact this (by simpa using heq.symm)

/-- Witness for C1: a concrete group of `runs` is a nonempty
case-insensitively constant run. -/
theorem C1_witness :
    ["a", "A"] ≠ [] ∧ ∀ x ∈ ["a", "A"], ∀ y ∈ ["a", "A"], lower x = lower y :=
  C1_clean_transcription.2.2.1 ["a", "A", "b"] ["a", "A"] (by decide)

/-- **C3 counterexample.**  `T0` is a JSON text satisfying the required
schema (its markdown `notes` value contains a fenced block), yet the
response parser yields a `StudyPackage` for the bare text and fails on
the fenced-and-tagged wrapping: `split` on the fence marker
(`app.py:576`) truncates the payload at the fence inside the `notes`
string. -/
theorem C3_counterexample :
    (jsonParse T0).map schemaOk = some true ∧
    (parse_response T0).isSome = true ∧
    (parse_response (fenceWrap T0)).isNone = true ∧
    parse_response (fenceWrap T0) ≠ parse_response T0 := by
  refine ⟨by decide, by decide, by decide, ?_⟩
  intro h
  have h1 : (parse_response (fenceWrap T0)).isNone = true := by decide
  have h2 : (parse_response T0).isSome = true := by decide
  rw [h] at h1
  rw [Option.isNone_iff_eq_none] at h1
  rw [h1] at h2
  simp at h2

/-- Whitespace characters are none of the letters of `"json"`. -/
theorem ws_chars {c : Char} (h : c.isWhitespace = true) :
    c ≠ 'j' ∧ c ≠ 's' ∧ c ≠ 'o' ∧ c ≠ 'n' := by
  refine ⟨?_, ?_, ?_, ?_⟩ <;> intro h2 <;> rw [h2] at h <;>
    exact absurd h (by decide)

/-- A list whose first three elements are known decomposes accordingly. -/
theorem take_three_shape (l : List Char) (a b c : Char)
    (h : l.take 3 = [a, b, c]) : ∃ r, l = a :: b :: c :: r := by
  rcases l with _ | ⟨x, l⟩
  · simp at h
  rcases l with _ | ⟨y, l⟩
  · simp at h
  rcases l with _ | ⟨z, l⟩
  · simp at h
  simp only [List.take_succ_cons, List.take_zero] at h
  injection h with h1 h
  injection h with h2 h
  injection h with h3 _
  exact ⟨l, by rw [h1, h2, h3]⟩

/-- `removeJson` removes a leading `"json"`. -/
theorem removeJson_json (t : List Char) :
    removeJson ('j' :: 's' :: 'o' :: 'n' :: t) = removeJson t := rfl

/-- `removeJson` keeps a head that is not `'j'`. -/
theorem removeJson_cons_ne (c : Char) (t : List Char) (h : c ≠ 'j') :
    removeJson (c :: t) = c :: removeJson t := by
  rw [removeJson.eq_def]
  split
  · rename_i cs heq
    injection heq with h1 _
    exact absurd h1 h
  · rename_i x c2 cs2 hno heq
    injection heq with h1 h2
    rw [h1, h2]
  · rename_i x heq
    cases heq

/-- `removeJson` keeps a `'j'` not followed by `"son"`. -/
theorem removeJson_cons_j (t : List Char) (h : t.take 3 ≠ ['s', 'o', 'n']) :
    removeJson ('j' :: t) = 'j' :: removeJson t := by
  rw [removeJson.eq_def]
  split
  · rename_i cs heq
    injection heq with h1 h2
    exact absurd (by rw [h2]; rfl) h
  · rename_i x c2 cs2 hno heq
    injection heq with h1 h2
    rw [h1, h2]
  · rename_i x heq
    cases heq

/-- `removeJson` passes an all-whitespace prefix through unchanged. -/
theorem removeJson_ws_left (p z : List Char)
    (hp : ∀ c ∈ p, c.isWhitespace = true) :
    removeJson (p ++ z) = p ++ removeJson z := by
  induction p with
  | nil => rfl
  | cons c p ih =>
    rw [List.cons_append,
      removeJson_cons_ne c _ (ws_chars (hp c (List.mem_cons_self c p))).1,
      ih (fun d hd => hp d (List.mem_cons_of_mem c hd)), List.cons_append]

/-- Appending all-whitespace characters cannot complete a `"son"`
continuation. -/
theorem take_json_append (cs s : List Char)
    (hs : ∀ c ∈ s, c.isWhitespace = true)
    (h3 : cs.take 3 ≠ ['s', 'o', 'n']) :
    (cs ++ s).take 3 ≠ ['s', 'o', 'n'] := by
  intro hx
  rcases cs with _ | ⟨c1, cs⟩
  · obtain ⟨r, hr⟩ := take_three_shape _ _ _ _ (by simpa using hx)
    have : 's' ∈ s := by rw [hr]; exact List.mem_cons_self _ _
    exact (ws_chars (hs _ this)).2.1 rfl
  rcases cs with _ | ⟨c2, cs⟩
  · simp only [List.cons_append, List.nil_append, List.take_succ_cons] at hx
    injection hx with h1 hx
    obtain ⟨r, hr⟩ : ∃ r, s = 'o' :: 'n' :: r := by
      rcases s with _ | ⟨y, s⟩
      · simp at hx
      rcases s with _ | ⟨z, s⟩
      · simp at hx
      simp only [List.take_succ_cons, List.take_zero] at hx
      injection hx with hy hx
      injection hx with hz _
      exact ⟨s, by rw [hy, hz]⟩
    have : 'o' ∈ s := by rw [hr]; exact List.mem_cons_self _ _
    exact (ws_chars (hs _ this)).2.2.1 rfl
  rcases cs with _ | ⟨c3, cs⟩
  · simp only [List.cons_append, List.nil_append, List.take_succ_cons] at hx
    injection hx with h1 hx
    injection hx with h2 hx
    obtain ⟨r, hr⟩ : ∃ r, s = 'n' :: r := by
      rcases s with _ | ⟨y, s⟩
      · simp at hx
      simp only [List.take_succ_cons, List.take_zero] at hx
      injection hx with hy _
      exact ⟨s, by rw [hy]⟩
    have : 'n' ∈ s := by rw [hr]; exact List.mem_cons_self _ _
    exact (ws_chars (hs _ this)).2.2.2 rfl
  · apply h3
    simpa using hx

/-- `removeJson` of all-whitespace input is the identity. -/
theorem removeJson_allws (s : List Char)
    (hs : ∀ c ∈ s, c.isWhitespace = true) : removeJson s = s := by
  induction s with
  | nil => rfl
  | cons c s ih =>
    rw [removeJson_cons_ne c _ (ws_chars (hs c (List.mem_cons_self c s))).1,
      ih (fun d hd => hs d (List.mem_cons_of_mem c hd))]

/-- `removeJson` passes an all-whitespace suffix through unchanged. -/
theorem removeJson_ws_right (z s : List Char)
    (hs : ∀ c ∈ s, c.isWhitespace = true) :
    removeJson (z ++ s) = removeJson z ++ s := by
  induction z using removeJson.induct with
  | case1 cs ih =>
    simp only [List.cons_append]
    rw [removeJson_json, removeJson_json, ih]
  | case2 c cs hno ih =>
    by_cases hc : c = 'j'
    · subst hc
      have h3 : cs.take 3 ≠ ['s', 'o', 'n'] := by
        intro htake
        obtain ⟨r, hr⟩ := take_three_shape cs 's' 'o' 'n' htake
        exact hno r rfl hr
      rw [List.cons_append, removeJson_cons_j _ (take_json_append cs s hs h3),
        ih, removeJson_cons_j _ h3, List.cons_append]
    · rw [List.cons_append, removeJson_cons_ne c _ hc, ih,
        removeJson_cons_ne c _ hc, List.cons_append]
  | case3 => simpa using removeJson_allws s hs

/-- `takeUntilFence` keeps a position where no fence starts. -/
theorem takeUntilFence_cons_ne (c : Char) (cs : List Char)
    (h : ¬ (c = backtick ∧ cs.take 2 = [backtick, backtick])) :
    takeUntilFence (c :: cs) = c :: takeUntilFence cs := by
  simp only [takeUntilFence, if_neg h]

/-- `takeUntilFence` stops at a fence. -/
theorem takeUntilFence_fence (cs : List Char) :
    takeUntilFence (backtick :: backtick :: backtick :: cs) = [] := by
  simp [takeUntilFence]

/-- A two-backtick prefix cannot straddle into a continuation that does
not begin with a backtick. -/
theorem take_two_backticks (xs : List Char) (w : List Char)
    (h : (xs ++ w).take 2 = [backtick, backtick])
    (hw : w.head? ≠ some backtick) : xs.take 2 = [backtick, backtick] := by
  rcases xs with _ | ⟨d1, xs⟩
  · simp only [List.nil_append] at h
    rcases w with _ | ⟨y, w⟩
    · simp at h
    simp only [List.take_succ_cons] at h
    injection h with h1 _
    exact absurd (by rw [h1]; rfl : (y :: w).head? = some backtick) hw
  rcases xs with _ | ⟨d2, xs⟩
  · simp only [List.cons_append, List.nil_append, List.take_succ_cons] at h
    injection h with h1 h
    rcases w with _ | ⟨y, w⟩
    · simp at h
    simp only [List.take_succ_cons] at h
    injection h with h2 _
    exact absurd (by rw [h2]; rfl : (y :: w).head? = some backtick) hw
  · simpa using h

/-- Everything in text followed by newline-and-fence is kept up to that
fence, provided the text itself contains no fence. -/
theorem takeUntilFence_append_fence (xs : List Char)
    (h : hasFence xs = false) :
    takeUntilFence (xs ++ (Char.ofNat 10 :: fence)) =
      xs ++ [Char.ofNat 10] := by
  induction xs with
  | nil =>
    rw [List.nil_append,
      takeUntilFence_cons_ne _ _ (fun hx => absurd hx.1 (by decide))]
    rw [show fence = backtick :: backtick :: backtick :: ([] : List Char)
      from rfl, takeUntilFence_fence]
    rfl
  | cons c xs ih =>
    simp only [hasFence, Bool.or_eq_false_iff, decide_eq_false_iff_not] at h
    obtain ⟨h1, h2⟩ := h
    rw [List.cons_append, takeUntilFence_cons_ne c _ ?hc2, ih h2,
      List.cons_append]
    case hc2 =>
      rintro ⟨hcb, htake⟩
      apply h1
      refine ⟨hcb, ?_⟩
      refine take_two_backticks xs (Char.ofNat 10 :: fence) htake (by decide)

/-- `hasFence` is monotone under prefixing. -/
theorem hasFence_append_left (u w : List Char) (h : hasFence w = true) :
    hasFence (u ++ w) = true := by
  induction u with
  | nil => simpa
  | cons c u ih => simp [hasFence, ih]

/-- A two-backtick prefix is preserved by appending. -/
theorem take_two_append (u w : List Char)
    (h : u.take 2 = [backtick, backtick]) :
    (u ++ w).take 2 = [backtick, backtick] := by
  obtain ⟨u', rfl⟩ : ∃ u', u = backtick :: backtick :: u' := by
    rcases u with _ | ⟨a, u⟩
    · simp at h
    rcases u with _ | ⟨b, u⟩
    · simp at h
    simp only [List.take_succ_cons, List.take_zero] at h
    injection h with h1 h
    injection h with h2 _
    exact ⟨u, by rw [h1, h2]⟩
  simp

/-- `hasFence` is monotone under appending. -/
theorem hasFence_append_right (u w : List Char) (h : hasFence u = true) :
    hasFence (u ++ w) = true := by
  induction u with
  | nil => simp [hasFence] at h
  | cons c u ih =>
    simp only [hasFence, Bool.or_eq_true, decide_eq_true_eq] at h ⊢
    rcases h with ⟨hc, htake⟩ | h
    · exact Or.inl ⟨hc, take_two_append u w htake⟩
    · exact Or.inr (ih h)

/-- Three leading backticks are a fence occurrence. -/
theorem hasFence_of_fence_head (r : List Char) :
    hasFence (backtick :: backtick :: backtick :: r) = true := by
  simp [hasFence]

/-- Dropping leading whitespace skips an all-whitespace prefix. -/
theorem dropWhile_ws_append (p z : List Char)
    (hp : ∀ c ∈ p, c.isWhitespace = true) :
    (p ++ z).dropWhile Char.isWhitespace = z.dropWhile Char.isWhitespace := by
  induction p with
  | nil => rfl
  | cons c p ih =>
    rw [List.cons_append, List.dropWhile_cons,
      if_pos (hp c (List.mem_cons_self c p))]
    exact ih (fun d hd => hp d (List.mem_cons_of_mem c hd))

/-- `strip` ignores an all-whitespace prefix. -/
theorem stripChars_ws_left (p z : List Char)
    (hp : ∀ c ∈ p, c.isWhitespace = true) :
    stripChars (p ++ z) = stripChars z := by
  unfold stripChars
  rw [dropWhile_ws_append p z hp]

/-- `strip` ignores an all-whitespace suffix. -/
theorem stripChars_ws_right (z s : List Char)
    (hs : ∀ c ∈ s, c.isWhitespace = true) :
    stripChars (z ++ s) = stripChars z := by
  induction z with
  | nil =>
    have h1 : s.dropWhile Char.isWhitespace = [] :=
      List.dropWhile_eq_nil_iff.mpr hs
    simp only [List.nil_append]
    unfold stripChars
    rw [h1]
    rfl
  | cons c z ih =>
    by_cases hc : c.isWhitespace = true
    · show stripChars (c :: (z ++ s)) = stripChars (c :: z)
      unfold stripChars
      rw [List.dropWhile_cons, if_pos hc, List.dropWhile_cons, if_pos hc]
      exact ih
    · show stripChars (c :: (z ++ s)) = stripChars (c :: z)
      unfold stripChars
      rw [List.dropWhile_cons, if_neg hc, List.dropWhile_cons, if_neg hc]
      rw [show c :: (z ++ s) = (c :: z) ++ s from rfl, List.reverse_append]
      rw [dropWhile_ws_append s.reverse (c :: z).reverse
        (fun d hd => hs d (List.mem_reverse.mp hd))]

/-- Every list is an all-whitespace prefix, its strip, and an
all-whitespace suffix. -/
theorem strip_decomposition (xs : List Char) :
    ∃ p s, (∀ c ∈ p, c.isWhitespace = true) ∧
      (∀ c ∈ s, c.isWhitespace = true) ∧
      xs = p ++ stripChars xs ++ s := by
  refine ⟨xs.takeWhile Char.isWhitespace,
    ((xs.dropWhile Char.isWhitespace).reverse.takeWhile
      Char.isWhitespace).reverse, ?_, ?_, ?_⟩
  · intro c hc
    exact List.mem_takeWhile_imp hc
  · intro c hc
    exact List.mem_takeWhile_imp (List.mem_reverse.mp hc)
  · have h1 : List.takeWhile Char.isWhitespace xs ++
        List.dropWhile Char.isWhitespace xs = xs :=
      List.takeWhile_append_dropWhile Char.isWhitespace xs
    have h2 : List.takeWhile Char.isWhitespace
          (List.dropWhile Char.isWhitespace xs).reverse ++
        List.dropWhile Char.isWhitespace
          (List.dropWhile Char.isWhitespace xs).reverse =
        (List.dropWhile Char.isWhitespace xs).reverse :=
      List.takeWhile_append_dropWhile Char.isWhitespace
        (List.dropWhile Char.isWhitespace xs).reverse
    have h3 : stripChars xs ++ (List.takeWhile Char.isWhitespace
        (List.dropWhile Char.isWhitespace xs).reverse).reverse =
        List.dropWhile Char.isWhitespace xs := by
      show (List.dropWhile Char.isWhitespace
        (List.dropWhile Char.isWhitespace xs).reverse).reverse ++ _ = _
      rw [← List.reverse_append, h2, List.reverse_reverse]
    rw [List.append_assoc, h3, h1]

/-- `strip` of a list with non-whitespace first and last characters is
the identity. -/
theorem stripChars_wrap (a b : Char) (xs : List Char)
    (ha : a.isWhitespace = false) (hb : b.isWhitespace = false) :
    stripChars (a :: (xs ++ [b])) = a :: (xs ++ [b]) := by
  unfold stripChars
  rw [List.dropWhile_cons, if_neg (by rw [ha]; exact Bool.false_ne_true)]
  have hrev : (a :: (xs ++ [b])).reverse = b :: (xs.reverse ++ [a]) := by
    simp
  rw [hrev, List.dropWhile_cons, if_neg (by rw [hb]; exact Bool.false_ne_true)]
  rw [← hrev, List.reverse_reverse]

/-- Core of the round-trip property: for fence-free text, the payload
extracted from the fenced-and-tagged wrapping coincides with the payload
extracted from the bare text. -/
theorem extract_payload_eq (t : String) (h : hasFence t.data = false) :
    extract_payload (fenceWrap t).data = extract_payload t.data := by
  have hdata : (fenceWrap t).data =
      backtick :: ((backtick :: backtick :: 'j' :: 's' :: 'o' :: 'n' ::
        Char.ofNat 10 :: t.data ++ [Char.ofNat 10, backtick, backtick]) ++
        [backtick]) := by
    show fence ++ ('j' :: 's' :: 'o' :: 'n' :: Char.ofNat 10 :: t.data) ++
        (Char.ofNat 10 :: fence) = _
    simp [fence]
  have hstrip1 : stripChars (fenceWrap t).data = (fenceWrap t).data := by
    rw [hdata, stripChars_wrap backtick backtick _ (by decide) (by decide)]
  have htake : ((fenceWrap t).data).take 3 = fence := by
    rw [hdata]
    rfl
  have hdrop : ((fenceWrap t).data).drop 3 =
      'j' :: 's' :: 'o' :: 'n' :: Char.ofNat 10 ::
        (t.data ++ (Char.ofNat 10 :: fence)) := by
    rw [hdata]
    simp [fence]
  have hko : ∀ c : Char, c ≠ backtick →
      ∀ cs : List Char, takeUntilFence (c :: cs) = c :: takeUntilFence cs :=
    fun c hc cs => takeUntilFence_cons_ne c cs (fun hx => absurd hx.1 hc)
  have htuf : takeUntilFence (((fenceWrap t).data).drop 3) =
      'j' :: 's' :: 'o' :: 'n' :: Char.ofNat 10 ::
        (t.data ++ [Char.ofNat 10]) := by
    rw [hdrop, hko 'j' (by decide), hko 's' (by decide), hko 'o' (by decide),
      hko 'n' (by decide), hko (Char.ofNat 10) (by decide),
      takeUntilFence_append_fence t.data h]
  have hrj : removeJson ('j' :: 's' :: 'o' :: 'n' :: Char.ofNat 10 ::
      (t.data ++ [Char.ofNat 10])) =
      Char.ofNat 10 :: (removeJson t.data ++ [Char.ofNat 10]) := by
    rw [removeJson_json, removeJson_cons_ne (Char.ofNat 10) _ (by decide),
      removeJson_ws_right t.data [Char.ofNat 10] (by decide)]
  have hnotfence : ¬ ((stripChars t.data).take 3 = fence) := by
    intro hx
    obtain ⟨r, hr⟩ := take_three_shape _ _ _ _ hx
    obtain ⟨p, s, hp, hs, hxs⟩ := strip_decomposition t.data
    have : hasFence t.data = true := by
      rw [hxs, hr]
      exact hasFence_append_right _ s
        (hasFence_append_left p _ (hasFence_of_fence_head r))
    rw [this] at h
    cases h
  have hfinal : stripChars (removeJson (stripChars t.data)) =
      stripChars (removeJson t.data) := by
    obtain ⟨p, s, hp, hs, hxs⟩ := strip_decomposition t.data
    conv_rhs => rw [hxs]
    rw [List.append_assoc, removeJson_ws_left p _ hp,
      removeJson_ws_right _ s hs, stripChars_ws_left p _ hp,
      stripChars_ws_right _ s hs]
  show stripChars (removeJson
      (if (stripChars (fenceWrap t).data).take 3 = fence then
        takeUntilFence ((stripChars (fenceWrap t).data).drop 3)
      else stripChars (fenceWrap t).data)) =
    stripChars (removeJson
      (if (stripChars t.data).take 3 = fence then
        takeUntilFence ((stripChars t.data).drop 3)
      else stripChars t.data))
  rw [hstrip1, if_pos htake, if_neg hnotfence, htuf, hrj]
  rw [show Char.ofNat 10 :: (removeJson t.data ++ [Char.ofNat 10]) =
    [Char.ofNat 10] ++ (removeJson t.data ++ [Char.ofNat 10]) from rfl]
  rw [stripChars_ws_left [Char.ofNat 10] _ (by decide),
    stripChars_ws_right _ [Char.ofNat 10] (by decide), hfinal]

/-- **C3 amended.**  For every response text that contains no fence
marker (three consecutive backticks) — in particular every
schema-satisfying JSON without one — parsing the text wrapped in a
fenced code block with a leading `json` language tag produces exactly
the same result as parsing the bare text. -/
theorem C3_fence_roundtrip (t : String) (h : hasFence t.data = false) :
    parse_response (fenceWrap t) = parse_response t := by
  unfold parse_response
  rw [extract_payload_eq t h]

/-- Witness for the amended C3 at the concrete response `"{}"`. -/
theorem C3_witness :
    parse_response (fenceWrap "\x7b\x7d") = parse_response "\x7b\x7d" :=
  C3_fence_roundtrip "\x7b\x7d" (by decide)
